import Mathlib

/-!
Shallow embedding of the shower tile-layout calculator
(`src/tile-calculator.js`, together with the installation-numbering logic of
`src/script.js`).  JavaScript numbers are modelled as exact rationals;
`Math.floor`, `Math.ceil`, `Math.abs`, `Math.min`, `Math.max` become the
rational floor, ceil, abs, min and max, and the JavaScript remainder
operator `%` (which takes the sign of the dividend) becomes `Int.tmod`.
-/

namespace ShowerTile

/-- JavaScript `Math.round`: round half toward positive infinity. -/
def jsRound (q : ℚ) : ℤ := ⌊q + 1/2⌋

/-- Body of `toFractionalInches` for a non-negative argument
(`src/tile-calculator.js` lines 16-42).  The source handles a negative
argument by one recursive call on its absolute value, which immediately
takes this non-negative path, so the recursion is modelled by the wrapper
`toFractionalInches` below. -/
def toFractionalInchesNonneg (decimalInches : ℚ) : String :=
  let eighths : ℤ := jsRound (decimalInches * 8)
  let wholeInches : ℤ := ⌊(eighths : ℚ) / 8⌋
  let remainderEighths : ℤ := Int.tmod eighths 8
  if remainderEighths = 0 then
    toString wholeInches ++ "\""
  else
    let nd : ℤ × ℤ :=
      if Int.tmod remainderEighths 4 = 0 then (remainderEighths / 4, 8 / 4)
      else if Int.tmod remainderEighths 2 = 0 then (remainderEighths / 2, 8 / 2)
      else (remainderEighths, 8)
    let fractionPart : String := toString nd.1 ++ "/" ++ toString nd.2
    if wholeInches = 0 then
      fractionPart ++ "\""
    else
      toString wholeInches ++ " " ++ fractionPart ++ "\""

/-- `toFractionalInches` from `src/tile-calculator.js` lines 11-43. -/
def toFractionalInches (decimalInches : ℚ) : String :=
  if decimalInches < 0 then
    "-" ++ toFractionalInchesNonneg |decimalInches|
  else
    toFractionalInchesNonneg decimalInches

/-- Reference definition for the non-negative case, following the spec's
wording for section 4.4: round the value to the nearest eighth of an inch as
`round(value * 8) / 8`, split the rounded value into whole inches and a
remainder in eighths, simplify the eighths fraction by 4 when divisible,
else by 2 when divisible, and format the pieces. -/
def toFractionalInchesSpecAbs (v : ℚ) : String :=
  let rounded : ℚ := (jsRound (v * 8) : ℚ) / 8
  let whole : ℤ := ⌊rounded⌋
  let remEighths : ℤ := ⌊(rounded - (whole : ℚ)) * 8⌋
  if remEighths = 0 then
    toString whole ++ "\""
  else
    let nd : ℤ × ℤ :=
      if 4 ∣ remEighths then (remEighths / 4, 8 / 4)
      else if 2 ∣ remEighths then (remEighths / 2, 8 / 2)
      else (remEighths, 8)
    let fractionPart : String := toString nd.1 ++ "/" ++ toString nd.2
    if whole = 0 then
      fractionPart ++ "\""
    else
      toString whole ++ " " ++ fractionPart ++ "\""

/-- Reference definition of the fractional-inch formatter, following the
spec's wording: a negative input formats its absolute value behind a `-`
prefix, a non-negative input is handled by `toFractionalInchesSpecAbs`. -/
def toFractionalInchesSpec (value : ℚ) : String :=
  if value < 0 then
    "-" ++ toFractionalInchesSpecAbs |value|
  else
    toFractionalInchesSpecAbs value

/-! Data model of the layout engine. -/

/-- Four-sided cut amounts of one placed tile. -/
structure CutInfo where
  left : ℚ
  right : ℚ
  top : ℚ
  bottom : ℚ
deriving DecidableEq, Repr

/-- One placed tile, as pushed by `calculateTileLayout`. -/
structure Tile where
  x : ℚ
  y : ℚ
  width : ℚ
  height : ℚ
  fullWidth : ℚ
  fullHeight : ℚ
  isCut : Bool
  cutInfo : CutInfo
  row : ℤ
  col : ℤ
deriving DecidableEq, Repr

/-- Alignment reference passed for a side wall.  The source passes a plain
object whose absent boolean fields read as falsy; both flags are modelled
explicitly. -/
structure WrapInfo where
  startX : ℚ
  startY : ℚ
  wrapFromLeft : Bool
  wrapFromRight : Bool
  referenceWidth : ℚ
deriving DecidableEq, Repr

/-- Result of `calculateTileLayout` for one wall. -/
structure WallLayout where
  tiles : List Tile
  tilesHorizontal : ℤ
  tilesVertical : ℤ
  totalTiles : ℕ
  fullTiles : ℕ
  cutTiles : ℕ
  wallWidth : ℚ
  wallHeight : ℚ
  startX : ℚ
  startY : ℚ
deriving DecidableEq, Repr

/-- Horizontal pattern offset for a row (`src/tile-calculator.js` lines
101-108).  JavaScript `row % 2 === 1` and `row % 3` use the truncated
remainder, hence `Int.tmod`. -/
def patternOffsetX (pattern : String) (tileWithGroutWidth : ℚ) (row : ℤ) : ℚ :=
  if pattern = "brick-50" ∧ Int.tmod row 2 = 1 then
    tileWithGroutWidth / 2
  else if pattern = "brick-33" ∧ Int.tmod row 3 ≠ 0 then
    (tileWithGroutWidth / 3) * ((Int.tmod row 3 : ℤ) : ℚ)
  else 0

/-- The tile record pushed for grid position `(row, col)` whose unclipped
rectangle has top-left corner `(x, y)` (lines 122-160 of the source). -/
def tileAt (wallWidth wallHeight tileWidth tileHeight x y : ℚ) (row col : ℤ) : Tile :=
  let tileRight := x + tileWidth
  let tileBottom := y + tileHeight
  let visibleLeft := max 0 x
  let visibleTop := max 0 y
  let visibleRight := min wallWidth tileRight
  let visibleBottom := min wallHeight tileBottom
  { x := visibleLeft
    y := visibleTop
    width := visibleRight - visibleLeft
    height := visibleBottom - visibleTop
    fullWidth := tileWidth
    fullHeight := tileHeight
    isCut := decide (x < 0) || decide (wallWidth < tileRight) ||
      decide (y < 0) || decide (wallHeight < tileBottom)
    cutInfo :=
      { left := if x < 0 then |x| else 0
        right := if wallWidth < tileRight then tileRight - wallWidth else 0
        top := if y < 0 then |y| else 0
        bottom := if wallHeight < tileBottom then tileBottom - wallHeight else 0 }
    row := row
    col := col }

/-- One iteration of the generation loop: `none` when the tile is skipped
as completely outside the wall (line 118 of the source). -/
def mkTile (wallWidth wallHeight tileWidth tileHeight twW twH startX startY : ℚ)
    (pattern : String) (row col : ℤ) : Option Tile :=
  let offsetX := patternOffsetX pattern twW row
  let x := (col : ℚ) * twW + offsetX - startX
  let y := (row : ℚ) * twH - startY
  if wallWidth ≤ x ∨ wallHeight ≤ y ∨ x + tileWidth ≤ 0 ∨ y + tileHeight ≤ 0 then
    none
  else
    some (tileAt wallWidth wallHeight tileWidth tileHeight x y row col)

/-- Centering offset of the reference wall for one axis (lines 67-72):
`(ceil(wallSize / pitch) * pitch - groutSpacing - wallSize) / 2`. -/
def centerStart (wallSize pitch groutSpacing : ℚ) : ℚ :=
  ((⌈wallSize / pitch⌉ : ℚ) * pitch - groutSpacing - wallSize) / 2

/-- The horizontal grid origin offset (lines 65-84).  The source leaves
`startX` undefined when an alignment reference has neither wrap flag set;
that case is unreachable from `calculateShowerLayout` and is modelled as 0. -/
def layoutStartX (wallWidth tileWidth groutSpacing : ℚ) (wrapInfo : Option WrapInfo) : ℚ :=
  match wrapInfo with
  | none => centerStart wallWidth (tileWidth + groutSpacing) groutSpacing
  | some w =>
    if w.wrapFromLeft then w.startX - wallWidth
    else if w.wrapFromRight then w.startX + w.referenceWidth
    else 0

/-- The vertical grid origin offset (lines 65-75). -/
def layoutStartY (wallHeight tileHeight groutSpacing : ℚ) (wrapInfo : Option WrapInfo) : ℚ :=
  match wrapInfo with
  | none => centerStart wallHeight (tileHeight + groutSpacing) groutSpacing
  | some w => w.startY

/-- The list of integers from `a` to `b` inclusive (a JavaScript
`for (i = a; i <= b; i++)` loop). -/
def intRange (a b : ℤ) : List ℤ :=
  (List.range (b + 1 - a).toNat).map (fun (i : ℕ) => a + (i : ℤ))

/-- The row-major tile list generated by the nested loops of
`calculateTileLayout` (lines 86-162). -/
def wallTiles (wallWidth wallHeight tileWidth tileHeight groutSpacing : ℚ)
    (pattern : String) (startX startY : ℚ) : List Tile :=
  let twW := tileWidth + groutSpacing
  let twH := tileHeight + groutSpacing
  let colStart := ⌊startX / twW⌋ - 2
  let rowStart := ⌊startY / twH⌋ - 2
  let colEnd := ⌈(wallWidth + |startX|) / twW⌉ + 2
  let rowEnd := ⌈(wallHeight + |startY|) / twH⌉ + 2
  (intRange rowStart rowEnd).flatMap (fun row =>
    (intRange colStart colEnd).filterMap (fun col =>
      mkTile wallWidth wallHeight tileWidth tileHeight twW twH startX startY pattern row col))

/-- `calculateTileLayout` from `src/tile-calculator.js` lines 56-176. -/
def calculateTileLayout (wallWidth wallHeight tileWidth tileHeight groutSpacing : ℚ)
    (pattern : String) (wrapInfo : Option WrapInfo) : WallLayout :=
  let twW := tileWidth + groutSpacing
  let twH := tileHeight + groutSpacing
  let startX := layoutStartX wallWidth tileWidth groutSpacing wrapInfo
  let startY := layoutStartY wallHeight tileHeight groutSpacing wrapInfo
  let colStart := ⌊startX / twW⌋ - 2
  let rowStart := ⌊startY / twH⌋ - 2
  let colEnd := ⌈(wallWidth + |startX|) / twW⌉ + 2
  let rowEnd := ⌈(wallHeight + |startY|) / twH⌉ + 2
  let tiles := wallTiles wallWidth wallHeight tileWidth tileHeight groutSpacing
    pattern startX startY
  { tiles := tiles
    tilesHorizontal := colEnd - colStart + 1
    tilesVertical := rowEnd - rowStart + 1
    totalTiles := tiles.length
    fullTiles := (tiles.filter (fun t => !t.isCut)).length
    cutTiles := (tiles.filter (fun t => t.isCut)).length
    wallWidth := wallWidth
    wallHeight := wallHeight
    startX := startX
    startY := startY }

/-- Which wall a tile belongs to (the strings `'back'`, `'left'`, `'right'`
of the source). -/
inductive Wall
  | back
  | left
  | right
deriving DecidableEq, Repr

/-- One corner pair.  The source's `walls: ['back', w]` array is modelled by
the side wall tag `sideWall`. -/
structure CornerPair where
  backTile : Tile
  sideTile : Tile
  sideWall : Wall
deriving DecidableEq, Repr

/-- A JavaScript `Map` keyed by rows, as a function: `set` overwrites. -/
def rowMapInsert (m : ℤ → Option Tile) (t : Tile) : ℤ → Option Tile :=
  fun r => if r = t.row then some t else m r

/-- The per-row lookup built from a wall's tiles for the side selected by
`sel` (lines 362-372 of the source): the last tile of the list with a
positive cut on that side wins for its row. -/
def byRowMap (sel : Tile → ℚ) (tiles : List Tile) : ℤ → Option Tile :=
  tiles.foldl (fun m t => if 0 < sel t then rowMapInsert m t else m) (fun _ => none)

/-- Pairs of back-wall left-edge cuts with left-wall right-edge cuts
(lines 374-383). -/
def leftCornerPairs (backWallLayout leftWallLayout : WallLayout) : List CornerPair :=
  let backLeftByRow := byRowMap (fun t => t.cutInfo.left) backWallLayout.tiles
  leftWallLayout.tiles.filterMap (fun t =>
    if 0 < t.cutInfo.right then
      match backLeftByRow t.row with
      | some bt => some ⟨bt, t, Wall.left⟩
      | none => none
    else none)

/-- Pairs of back-wall right-edge cuts with right-wall left-edge cuts
(lines 385-394). -/
def rightCornerPairs (backWallLayout rightWallLayout : WallLayout) : List CornerPair :=
  let backRightByRow := byRowMap (fun t => t.cutInfo.right) backWallLayout.tiles
  rightWallLayout.tiles.filterMap (fun t =>
    if 0 < t.cutInfo.left then
      match backRightByRow t.row with
      | some bt => some ⟨bt, t, Wall.right⟩
      | none => none
    else none)

/-- `identifyCornerPairs` from `src/tile-calculator.js` lines 359-397. -/
def identifyCornerPairs (backWallLayout leftWallLayout rightWallLayout : WallLayout) :
    List CornerPair :=
  leftCornerPairs backWallLayout leftWallLayout ++
    rightCornerPairs backWallLayout rightWallLayout

/-- Input parameter object of `calculateShowerLayout`. -/
structure ShowerParams where
  showerWidth : ℚ
  showerHeight : ℚ
  showerDepth : ℚ
  tileWidth : ℚ
  tileHeight : ℚ
  groutSpacing : ℚ
  pattern : String
deriving DecidableEq, Repr

/-- Aggregate result of `calculateShowerLayout`. -/
structure ShowerLayoutResult where
  backWall : WallLayout
  leftWall : WallLayout
  rightWall : WallLayout
  totalTiles : ℕ
  totalFullTiles : ℕ
  totalCutTiles : ℕ
  physicalTiles : ℤ
  recommendedPurchase : ℤ
  cornerPairs : List CornerPair
deriving DecidableEq, Repr

/-- `calculateShowerLayout` from `src/tile-calculator.js` lines 276-348. -/
def calculateShowerLayout (params : ShowerParams) : ShowerLayoutResult :=
  let backWallLayout := calculateTileLayout params.showerWidth params.showerHeight
    params.tileWidth params.tileHeight params.groutSpacing params.pattern none
  let leftWallLayout := calculateTileLayout params.showerDepth params.showerHeight
    params.tileWidth params.tileHeight params.groutSpacing params.pattern
    (some ⟨backWallLayout.startX, backWallLayout.startY, true, false, params.showerWidth⟩)
  let rightWallLayout := calculateTileLayout params.showerDepth params.showerHeight
    params.tileWidth params.tileHeight params.groutSpacing params.pattern
    (some ⟨backWallLayout.startX, backWallLayout.startY, false, true, params.showerWidth⟩)
  let totalTiles := backWallLayout.totalTiles + leftWallLayout.totalTiles +
    rightWallLayout.totalTiles
  let cornerPairs := identifyCornerPairs backWallLayout leftWallLayout rightWallLayout
  let physicalTiles : ℤ := (totalTiles : ℤ) - cornerPairs.length
  { backWall := backWallLayout
    leftWall := leftWallLayout
    rightWall := rightWallLayout
    totalTiles := totalTiles
    totalFullTiles := backWallLayout.fullTiles + leftWallLayout.fullTiles +
      rightWallLayout.fullTiles
    totalCutTiles := backWallLayout.cutTiles + leftWallLayout.cutTiles +
      rightWallLayout.cutTiles
    physicalTiles := physicalTiles
    recommendedPurchase := ⌈(physicalTiles : ℚ) * (1.10 : ℚ)⌉
    cornerPairs := cornerPairs }

/-- The input validation performed by the caller `generate()` in
`src/script.js` lines 422-430, before the core is invoked: the error
message shown, if any. -/
def generateValidationError (showerWidth showerHeight showerDepth tileWidth tileHeight : ℚ) :
    Option String :=
  if showerWidth ≤ 0 ∨ showerHeight ≤ 0 ∨ showerDepth ≤ 0 then
    some "Please enter valid shower dimensions."
  else if tileWidth ≤ 0 ∨ tileHeight ≤ 0 then
    some "Please enter valid tile dimensions."
  else none

/-! Installation numbering (`assignGlobalTileNumbers`, `src/script.js`
lines 365-411).  The source mutates `tile.installNumber` in place and keys
its pair map by object identity; tiles are identified here by wall tag and
grid coordinates, which the nodup lemmas below show is faithful. -/

/-- An assigned installation number: a plain sequential number or an
`L`-prefixed ledger number. -/
inductive InstallNumber
  | num (n : ℕ)
  | ledger (n : ℕ)
deriving DecidableEq, Repr

/-- Identity of a tile across the three walls: wall tag, row, column. -/
abbrev TileKey := Wall × ℤ × ℤ

/-- The identity key of a tile on a given wall. -/
def tileKey (w : Wall) (t : Tile) : TileKey := (w, t.row, t.col)

/-- State threaded through the numbering pass: the two counters and the
numbers assigned so far. -/
structure NumberingState where
  nextNumber : ℕ
  nextLedger : ℕ
  assign : TileKey → Option InstallNumber

/-- The side-tile-to-back-tile map built from the corner pairs
(lines 369-374 of `src/script.js`); later pairs overwrite earlier ones. -/
def pairMapOf (cornerPairs : List CornerPair) : TileKey → Option TileKey :=
  cornerPairs.foldl
    (fun m p => Function.update m (tileKey p.sideWall p.sideTile)
      (some (tileKey Wall.back p.backTile)))
    (fun _ => none)

/-- The sort comparator of `sortTiles` (lines 376-379): `a` comes before
`b` when the comparator value is non-positive — rows in descending `y`
with a 0.01 tolerance, then ascending `x`. -/
def tileBefore (a b : Tile) : Bool :=
  if 1/100 < |a.y - b.y| then decide (b.y < a.y) else decide (a.x ≤ b.x)

/-- `sortTiles`: JavaScript `Array.prototype.sort` is a stable sort. -/
def sortTiles (tiles : List Tile) : List Tile := tiles.mergeSort tileBefore

/-- The bottom-row `y` used for ledger numbering (lines 381-388): the `y`
of the first back-wall tile in sorted order, when ledger mode is active. -/
def bottomRowYOf (useLedgerBoard : Bool) (backWallLayout : WallLayout) : Option ℚ :=
  if useLedgerBoard then
    ((sortTiles backWallLayout.tiles).head?).map Tile.y
  else none

/-- Processing of one tile in the numbering loop (lines 398-409). -/
def numberTile (useLedgerBoard : Bool) (bottomRowY : Option ℚ)
    (pairMap : TileKey → Option TileKey) (w : Wall)
    (s : NumberingState) (t : Tile) : NumberingState :=
  match pairMap (tileKey w t) with
  | some backKey =>
    { s with assign := Function.update s.assign (tileKey w t) (s.assign backKey) }
  | none =>
    if useLedgerBoard && (match bottomRowY with
        | some b => decide (|t.y - b| < 1/100)
        | none => false) then
      { nextNumber := s.nextNumber
        nextLedger := s.nextLedger + 1
        assign := Function.update s.assign (tileKey w t)
          (some (InstallNumber.ledger s.nextLedger)) }
    else
      { nextNumber := s.nextNumber + 1
        nextLedger := s.nextLedger
        assign := Function.update s.assign (tileKey w t)
          (some (InstallNumber.num s.nextNumber)) }

/-- `assignGlobalTileNumbers` from `src/script.js` lines 365-411: walls are
numbered in the order back, left, right, each in sorted order, starting
both counters at 1.  (The source's additional `cornerPairWall` annotation
does not influence the numbering and is not modelled.) -/
def assignGlobalTileNumbers (useLedgerBoard : Bool)
    (backWallLayout leftWallLayout rightWallLayout : WallLayout)
    (cornerPairs : List CornerPair) : NumberingState :=
  let pairMap := pairMapOf cornerPairs
  let bottomRowY := bottomRowYOf useLedgerBoard backWallLayout
  let s0 : NumberingState := ⟨1, 1, fun _ => none⟩
  let s1 := (sortTiles backWallLayout.tiles).foldl
    (numberTile useLedgerBoard bottomRowY pairMap Wall.back) s0
  let s2 := (sortTiles leftWallLayout.tiles).foldl
    (numberTile useLedgerBoard bottomRowY pairMap Wall.left) s1
  (sortTiles rightWallLayout.tiles).foldl
    (numberTile useLedgerBoard bottomRowY pairMap Wall.right) s2

/-! Basic facts about the generated tiles. -/

theorem tileAt_fields (W H tw th x y : ℚ) (r c : ℤ) :
    (tileAt W H tw th x y r c).x = max 0 x ∧
    (tileAt W H tw th x y r c).y = max 0 y ∧
    (tileAt W H tw th x y r c).width = min W (x + tw) - max 0 x ∧
    (tileAt W H tw th x y r c).height = min H (y + th) - max 0 y ∧
    (tileAt W H tw th x y r c).fullWidth = tw ∧
    (tileAt W H tw th x y r c).fullHeight = th ∧
    (tileAt W H tw th x y r c).cutInfo.left = (if x < 0 then |x| else 0) ∧
    (tileAt W H tw th x y r c).cutInfo.right = (if W < x + tw then x + tw - W else 0) ∧
    (tileAt W H tw th x y r c).cutInfo.top = (if y < 0 then |y| else 0) ∧
    (tileAt W H tw th x y r c).cutInfo.bottom = (if H < y + th then y + th - H else 0) ∧
    (tileAt W H tw th x y r c).row = r ∧
    (tileAt W H tw th x y r c).col = c := by
  refine ⟨rfl, rfl, rfl, rfl, rfl, rfl, rfl, rfl, rfl, rfl, rfl, rfl⟩

theorem mkTile_eq_some {W H tw th twW twH sX sY : ℚ} {pat : String} {row col : ℤ} {t : Tile}
    (h : mkTile W H tw th twW twH sX sY pat row col = some t) :
    ∃ x y, x = (col : ℚ) * twW + patternOffsetX pat twW row - sX ∧
      y = (row : ℚ) * twH - sY ∧
      x < W ∧ y < H ∧ 0 < x + tw ∧ 0 < y + th ∧
      t = tileAt W H tw th x y row col := by
  unfold mkTile at h
  by_cases hc : W ≤ (col : ℚ) * twW + patternOffsetX pat twW row - sX ∨
      H ≤ (row : ℚ) * twH - sY ∨
      (col : ℚ) * twW + patternOffsetX pat twW row - sX + tw ≤ 0 ∨
      (row : ℚ) * twH - sY + th ≤ 0
  · rw [if_pos hc] at h
    exact absurd h (by simp)
  · rw [if_neg hc] at h
    push_neg at hc
    exact ⟨_, _, rfl, rfl, hc.1, hc.2.1, hc.2.2.1, hc.2.2.2,
      (Option.some.injEq _ _ ▸ h).symm⟩

theorem calculateTileLayout_tiles (wallWidth wallHeight tileWidth tileHeight groutSpacing : ℚ)
    (pattern : String) (wrapInfo : Option WrapInfo) :
    (calculateTileLayout wallWidth wallHeight tileWidth tileHeight groutSpacing pattern
        wrapInfo).tiles =
      wallTiles wallWidth wallHeight tileWidth tileHeight groutSpacing pattern
        (layoutStartX wallWidth tileWidth groutSpacing wrapInfo)
        (layoutStartY wallHeight tileHeight groutSpacing wrapInfo) := rfl

theorem mem_wallTiles {wallWidth wallHeight tileWidth tileHeight groutSpacing sX sY : ℚ}
    {pattern : String} {t : Tile}
    (ht : t ∈ wallTiles wallWidth wallHeight tileWidth tileHeight groutSpacing pattern sX sY) :
    ∃ row col,
      row ∈ intRange (⌊sY / (tileHeight + groutSpacing)⌋ - 2)
        (⌈(wallHeight + |sY|) / (tileHeight + groutSpacing)⌉ + 2) ∧
      col ∈ intRange (⌊sX / (tileWidth + groutSpacing)⌋ - 2)
        (⌈(wallWidth + |sX|) / (tileWidth + groutSpacing)⌉ + 2) ∧
      mkTile wallWidth wallHeight tileWidth tileHeight (tileWidth + groutSpacing)
        (tileHeight + groutSpacing) sX sY pattern row col = some t := by
  unfold wallTiles at ht
  simp only [List.mem_flatMap, List.mem_filterMap] at ht
  obtain ⟨row, hrow, col, hcol, h⟩ := ht
  exact ⟨row, col, hrow, hcol, h⟩

/-- Every tile of a generated layout is `tileAt` of an in-bounds raw
position.  This is the workhorse elimination rule for the per-tile
invariants. -/
theorem mem_tiles_elim {wallWidth wallHeight tileWidth tileHeight groutSpacing : ℚ}
    {pattern : String} {wrapInfo : Option WrapInfo} {t : Tile}
    (ht : t ∈ (calculateTileLayout wallWidth wallHeight tileWidth tileHeight groutSpacing
      pattern wrapInfo).tiles) :
    ∃ x y row col, x < wallWidth ∧ y < wallHeight ∧ 0 < x + tileWidth ∧ 0 < y + tileHeight ∧
      t = tileAt wallWidth wallHeight tileWidth tileHeight x y row col := by
  rw [calculateTileLayout_tiles] at ht
  obtain ⟨row, col, _, _, h⟩ := mem_wallTiles ht
  obtain ⟨x, y, _, _, h1, h2, h3, h4, h5⟩ := mkTile_eq_some h
  exact ⟨x, y, row, col, h1, h2, h3, h4, h5⟩

theorem tileAt_cut_width_sum (W H tw th x y : ℚ) (r c : ℤ) :
    (tileAt W H tw th x y r c).cutInfo.left + (tileAt W H tw th x y r c).width +
        (tileAt W H tw th x y r c).cutInfo.right = tw ∧
    (tileAt W H tw th x y r c).cutInfo.top + (tileAt W H tw th x y r c).height +
        (tileAt W H tw th x y r c).cutInfo.bottom = th := by
  obtain ⟨-, -, hw, hh, -, -, hcl, hcr, hct, hcb, -, -⟩ := tileAt_fields W H tw th x y r c
  constructor
  · rw [hw, hcl, hcr]
    rcases lt_or_le x 0 with h1 | h1 <;> rcases lt_or_le W (x + tw) with h2 | h2 <;>
      simp [h1, h2, abs_of_neg, not_lt.mpr, min_def, max_def] <;> split_ifs <;> linarith
  · rw [hh, hct, hcb]
    rcases lt_or_le y 0 with h1 | h1 <;> rcases lt_or_le H (y + th) with h2 | h2 <;>
      simp [h1, h2, abs_of_neg, not_lt.mpr, min_def, max_def] <;> split_ifs <;> linarith

theorem tileAt_inside_wall (W H tw th x y : ℚ) (r c : ℤ) :
    0 ≤ (tileAt W H tw th x y r c).x ∧ 0 ≤ (tileAt W H tw th x y r c).y ∧
    (tileAt W H tw th x y r c).x + (tileAt W H tw th x y r c).width ≤ W ∧
    (tileAt W H tw th x y r c).y + (tileAt W H tw th x y r c).height ≤ H := by
  obtain ⟨hx, hy, hw, hh, -⟩ := tileAt_fields W H tw th x y r c
  refine ⟨hx ▸ le_max_left 0 x, hy ▸ le_max_left 0 y, ?_, ?_⟩
  · rw [hx, hw]
    have := min_le_left W (x + tw)
    linarith
  · rw [hy, hh]
    have := min_le_left H (y + th)
    linarith

theorem tileAt_positive_size {W H tw th x y : ℚ} (r c : ℤ)
    (hW : 0 < W) (hH : 0 < H) (htw : 0 < tw) (hth : 0 < th)
    (hx : x < W) (hy : y < H) (hxr : 0 < x + tw) (hyb : 0 < y + th) :
    0 < (tileAt W H tw th x y r c).width ∧ 0 < (tileAt W H tw th x y r c).height := by
  obtain ⟨-, -, hw, hh, -⟩ := tileAt_fields W H tw th x y r c
  constructor
  · rw [hw]
    have h1 : max 0 x < min W (x + tw) := by
      rw [max_lt_iff, lt_min_iff, lt_min_iff]
      exact ⟨⟨hW, hxr⟩, hx, by linarith⟩
    linarith
  · rw [hh]
    have h1 : max 0 y < min H (y + th) := by
      rw [max_lt_iff, lt_min_iff, lt_min_iff]
      exact ⟨⟨hH, hyb⟩, hy, by linarith⟩
    linarith

/-! Shared concrete inputs used by the witnesses below.  For
`exampleParams` the back wall is 30x10 with 8x8 tiles, no grout, straight
pattern; its grid offset is `startX = 1`, `startY = 3`. -/

def exampleParams : ShowerParams := ⟨30, 10, 20, 8, 8, 0, "straight"⟩

def exampleBackTile : Tile :=
  ⟨0, 0, 7, 5, 8, 8, true, ⟨1, 0, 3, 0⟩, 0, 0⟩

def exampleLeftTile : Tile :=
  ⟨19, 0, 1, 5, 8, 8, true, ⟨0, 7, 3, 0⟩, 0, 0⟩

/-- C1: for a layout computed with a non-null alignment reference, the
returned `startY` is the reference's `startY` verbatim; `startX` is
`reference startX - wallWidth` when the wall wraps from the back wall's
left edge, and `reference startX + referenceWidth` when it wraps from
the right edge (the two wrap states being mutually exclusive). -/
theorem wrap_alignment_startXY (wallWidth wallHeight tileWidth tileHeight groutSpacing : ℚ)
    (pattern : String) (w : WrapInfo) :
    (calculateTileLayout wallWidth wallHeight tileWidth tileHeight groutSpacing pattern
        (some w)).startY = w.startY ∧
    (w.wrapFromLeft = true →
      (calculateTileLayout wallWidth wallHeight tileWidth tileHeight groutSpacing pattern
        (some w)).startX = w.startX - wallWidth) ∧
    (w.wrapFromLeft = false → w.wrapFromRight = true →
      (calculateTileLayout wallWidth wallHeight tileWidth tileHeight groutSpacing pattern
        (some w)).startX = w.startX + w.referenceWidth) := by
  refine ⟨rfl, fun h => ?_, fun h1 h2 => ?_⟩
  · show layoutStartX wallWidth tileWidth groutSpacing (some w) = _
    simp [layoutStartX, h]
  · show layoutStartX wallWidth tileWidth groutSpacing (some w) = _
    simp [layoutStartX, h1, h2]

theorem wrap_alignment_startXY_witness :
    (calculateTileLayout 20 10 8 8 0 "straight" (some ⟨1, 3, true, false, 30⟩)).startX
      = 1 - 20 ∧
    (calculateTileLayout 20 10 8 8 0 "straight" (some ⟨1, 3, false, true, 30⟩)).startX
      = 1 + 30 ∧
    (calculateTileLayout 20 10 8 8 0 "straight" (some ⟨1, 3, true, false, 30⟩)).startY = 3 :=
  ⟨(wrap_alignment_startXY 20 10 8 8 0 "straight" ⟨1, 3, true, false, 30⟩).2.1 rfl,
   (wrap_alignment_startXY 20 10 8 8 0 "straight" ⟨1, 3, false, true, 30⟩).2.2 rfl rfl,
   (wrap_alignment_startXY 20 10 8 8 0 "straight" ⟨1, 3, true, false, 30⟩).1⟩

/-- C2: for every tile of a layout computed from positive dimensions and
non-negative grout spacing, `cutInfo.left + width + cutInfo.right` equals
`fullWidth` and `cutInfo.top + height + cutInfo.bottom` equals
`fullHeight`, within the 1e-3 tolerance (the embedding is exact, so the
sums agree exactly and in particular within tolerance). -/
theorem tile_cut_sums_to_full {wallWidth wallHeight tileWidth tileHeight groutSpacing : ℚ}
    {pattern : String} {wrapInfo : Option WrapInfo}
    (hW : 0 < wallWidth) (hH : 0 < wallHeight) (htw : 0 < tileWidth) (hth : 0 < tileHeight)
    (hg : 0 ≤ groutSpacing) {t : Tile}
    (ht : t ∈ (calculateTileLayout wallWidth wallHeight tileWidth tileHeight groutSpacing
      pattern wrapInfo).tiles) :
    |t.cutInfo.left + t.width + t.cutInfo.right - t.fullWidth| ≤ 1/1000 ∧
    |t.cutInfo.top + t.height + t.cutInfo.bottom - t.fullHeight| ≤ 1/1000 := by
  obtain ⟨x, y, row, col, -, -, -, -, rfl⟩ := mem_tiles_elim ht
  obtain ⟨hsw, hsh⟩ := tileAt_cut_width_sum wallWidth wallHeight tileWidth tileHeight x y row col
  obtain ⟨-, -, -, -, hfw, hfh, -⟩ :=
    tileAt_fields wallWidth wallHeight tileWidth tileHeight x y row col
  rw [hsw, hsh, hfw, hfh]
  norm_num

/-- C5: no tile's visible rectangle extends outside the wall: `x ≥ 0`,
`y ≥ 0`, `x + width ≤ wallWidth`, `y + height ≤ wallHeight`.  The bounds
hold exactly in the embedding, hence in particular within the claim's
1e-3 tolerance. -/
theorem tile_within_wall_bounds {wallWidth wallHeight tileWidth tileHeight groutSpacing : ℚ}
    {pattern : String} {wrapInfo : Option WrapInfo} {t : Tile}
    (ht : t ∈ (calculateTileLayout wallWidth wallHeight tileWidth tileHeight groutSpacing
      pattern wrapInfo).tiles) :
    0 ≤ t.x ∧ 0 ≤ t.y ∧ t.x + t.width ≤ wallWidth ∧ t.y + t.height ≤ wallHeight := by
  obtain ⟨x, y, row, col, -, -, -, -, rfl⟩ := mem_tiles_elim ht
  exact tileAt_inside_wall wallWidth wallHeight tileWidth tileHeight x y row col

/-- C10: every tile of a layout computed from positive wall and tile
dimensions has strictly positive visible width and height; candidate grid
positions that only touch the wall boundary are discarded by the skip
test, so no zero-area tile is emitted. -/
theorem tile_positive_visible_size {wallWidth wallHeight tileWidth tileHeight groutSpacing : ℚ}
    {pattern : String} {wrapInfo : Option WrapInfo}
    (hW : 0 < wallWidth) (hH : 0 < wallHeight) (htw : 0 < tileWidth) (hth : 0 < tileHeight)
    {t : Tile}
    (ht : t ∈ (calculateTileLayout wallWidth wallHeight tileWidth tileHeight groutSpacing
      pattern wrapInfo).tiles) :
    0 < t.width ∧ 0 < t.height := by
  obtain ⟨x, y, row, col, h1, h2, h3, h4, rfl⟩ := mem_tiles_elim ht
  exact tileAt_positive_size row col hW hH htw hth h1 h2 h3 h4

/-- C7: the aggregate result satisfies
`physicalTiles = totalTiles - cornerPairs.length` and
`recommendedPurchase = ceil(physicalTiles * 11/10)` (the 10 percent waste
factor, rounded up), for every input. -/
theorem physical_tiles_and_recommended_purchase (params : ShowerParams) :
    (calculateShowerLayout params).physicalTiles =
      ((calculateShowerLayout params).totalTiles : ℤ) -
        (calculateShowerLayout params).cornerPairs.length ∧
    (calculateShowerLayout params).recommendedPurchase =
      ⌈((calculateShowerLayout params).physicalTiles : ℚ) * (11/10)⌉ := by
  refine ⟨rfl, ?_⟩
  show (⌈((calculateShowerLayout params).physicalTiles : ℚ) * (1.10 : ℚ)⌉ : ℤ) = _
  norm_num

/-- C4 (amended): the non-positive-dimension validation failure is raised
by the UI caller `generate()` in `src/script.js` before the core is
invoked; whenever some wall or tile dimension is non-positive the caller
reports a descriptive error message and skips the computation, while
`calculateTileLayout`/`calculateShowerLayout` themselves validate nothing
and return a layout structure for any input. -/
theorem caller_validates_nonpositive_dimensions
    (showerWidth showerHeight showerDepth tileWidth tileHeight : ℚ)
    (h : showerWidth ≤ 0 ∨ showerHeight ≤ 0 ∨ showerDepth ≤ 0 ∨
      tileWidth ≤ 0 ∨ tileHeight ≤ 0) :
    (generateValidationError showerWidth showerHeight showerDepth tileWidth
      tileHeight).isSome = true := by
  unfold generateValidationError
  rcases h with h | h | h | h | h <;> split_ifs <;> simp_all

theorem caller_validates_nonpositive_dimensions_witness :
    ((0:ℚ) ≤ 0 ∨ (6:ℚ) ≤ 0 ∨ (6:ℚ) ≤ 0 ∨ (6:ℚ) ≤ 0 ∨ (6:ℚ) ≤ 0) ∧
    (generateValidationError 0 6 6 6 6).isSome = true :=
  ⟨Or.inl (le_refl 0),
   caller_validates_nonpositive_dimensions 0 6 6 6 6 (Or.inl (le_refl 0))⟩

/-! The fractional-inch formatter agrees with its reference definition. -/

theorem tmod_cond_eq_dvd {r d : ℤ} (hr : 0 ≤ r) (hd : 0 ≤ d) :
    (Int.tmod r d = 0) = (d ∣ r) := by
  rw [Int.tmod_eq_emod hr hd]
  exact propext Int.dvd_iff_emod_eq_zero.symm

theorem toFractionalInchesNonneg_eq_specAbs (u : ℚ) (hu : 0 ≤ u) :
    toFractionalInchesNonneg u = toFractionalInchesSpecAbs u := by
  have he : 0 ≤ jsRound (u * 8) := by
    unfold jsRound
    exact Int.le_floor.mpr (by push_cast; nlinarith)
  simp only [toFractionalInchesNonneg, toFractionalInchesSpecAbs]
  set e := jsRound (u * 8) with hedef
  have hrem : ⌊((e : ℚ) / 8 - (⌊(e : ℚ) / 8⌋ : ℚ)) * 8⌋ = Int.tmod e 8 := by
    have h1 : ⌊(e : ℚ) / 8⌋ = e / 8 := by
      exact_mod_cast Rat.floor_intCast_div_natCast e 8
    have h2 : ((e : ℚ) / 8 - (⌊(e : ℚ) / 8⌋ : ℚ)) * 8 = ((e - 8 * (e / 8) : ℤ) : ℚ) := by
      rw [h1]
      push_cast
      ring
    rw [h2, Int.floor_intCast, Int.tmod_eq_emod he (by norm_num), Int.emod_def]
  rw [hrem]
  have hr : 0 ≤ Int.tmod e 8 := Int.tmod_nonneg _ he
  simp only [tmod_cond_eq_dvd hr (show (0:ℤ) ≤ 4 by norm_num),
    tmod_cond_eq_dvd hr (show (0:ℤ) ≤ 2 by norm_num)]

theorem toFractionalInches_eq_spec (v : ℚ) :
    toFractionalInches v = toFractionalInchesSpec v := by
  unfold toFractionalInches toFractionalInchesSpec
  split_ifs with h
  · rw [toFractionalInchesNonneg_eq_specAbs _ (abs_nonneg v)]
  · exact toFractionalInchesNonneg_eq_specAbs v (not_lt.mp h)

/-! At most one cut tile per row and per vertical edge. -/

theorem raw_x_unique (lo : ℚ) {twW tw : ℚ} {c1 c2 : ℤ} {x1 x2 : ℚ}
    (htw : 0 < tw) (htwW : tw ≤ twW)
    (hx1a : lo - tw < x1) (hx1b : x1 < lo) (hx2a : lo - tw < x2) (hx2b : x2 < lo)
    (hd : x1 - x2 = ((c1 : ℚ) - (c2 : ℚ)) * twW) : c1 = c2 := by
  by_contra hne
  have h1 : (1 : ℚ) ≤ |(c1 : ℚ) - (c2 : ℚ)| := by
    have h0 : (1 : ℤ) ≤ |c1 - c2| := Int.one_le_abs (sub_ne_zero.mpr hne)
    have h0q : ((1 : ℤ) : ℚ) ≤ ((|c1 - c2| : ℤ) : ℚ) := Int.cast_le.mpr h0
    push_cast at h0q
    exact h0q
  have h2 : |x1 - x2| < tw := abs_lt.mpr ⟨by linarith, by linarith⟩
  have h3 : |x1 - x2| = |(c1 : ℚ) - (c2 : ℚ)| * twW := by
    rw [hd, abs_mul, abs_of_pos (show (0:ℚ) < twW by linarith)]
  have h4 : twW ≤ |(c1 : ℚ) - (c2 : ℚ)| * twW := by nlinarith
  linarith

/-- C8: in a layout computed from positive dimensions and non-negative
grout spacing, two tiles of the same row that are both cut on the left
edge coincide, and likewise for the right edge — each row has at most one
left-cut and at most one right-cut tile, so the per-row lookups built by
`identifyCornerPairs` are well defined. -/
theorem at_most_one_edge_cut_per_row
    {wallWidth wallHeight tileWidth tileHeight groutSpacing : ℚ}
    {pattern : String} {wrapInfo : Option WrapInfo}
    (hW : 0 < wallWidth) (hH : 0 < wallHeight) (htw : 0 < tileWidth) (hth : 0 < tileHeight)
    (hg : 0 ≤ groutSpacing) {t1 t2 : Tile}
    (h1 : t1 ∈ (calculateTileLayout wallWidth wallHeight tileWidth tileHeight groutSpacing
      pattern wrapInfo).tiles)
    (h2 : t2 ∈ (calculateTileLayout wallWidth wallHeight tileWidth tileHeight groutSpacing
      pattern wrapInfo).tiles)
    (hrow : t1.row = t2.row) :
    (0 < t1.cutInfo.left → 0 < t2.cutInfo.left → t1 = t2) ∧
    (0 < t1.cutInfo.right → 0 < t2.cutInfo.right → t1 = t2) := by
  rw [calculateTileLayout_tiles] at h1 h2
  obtain ⟨row1, col1, -, -, hmk1⟩ := mem_wallTiles h1
  obtain ⟨row2, col2, -, -, hmk2⟩ := mem_wallTiles h2
  obtain ⟨x1, y1, hx1, hy1, hb1, -, hr1, -, ht1⟩ := mkTile_eq_some hmk1
  obtain ⟨x2, y2, hx2, hy2, hb2, -, hr2, -, ht2⟩ := mkTile_eq_some hmk2
  obtain ⟨-, -, -, -, -, -, hcl1, hcr1, -, -, hrow1, -⟩ :=
    tileAt_fields wallWidth wallHeight tileWidth tileHeight x1 y1 row1 col1
  obtain ⟨-, -, -, -, -, -, hcl2, hcr2, -, -, hrow2, -⟩ :=
    tileAt_fields wallWidth wallHeight tileWidth tileHeight x2 y2 row2 col2
  have hrr : row1 = row2 := by
    rw [ht1, ht2] at hrow
    rw [hrow1, hrow2] at hrow
    exact hrow
  have hyy : y1 = y2 := by rw [hy1, hy2, hrr]
  have hdd : x1 - x2 = ((col1 : ℚ) - (col2 : ℚ)) * (tileWidth + groutSpacing) := by
    rw [hx1, hx2, hrr]
    ring
  have htwW : tileWidth ≤ tileWidth + groutSpacing := by linarith
  constructor
  · intro hc1 hc2
    rw [ht1, hcl1] at hc1
    rw [ht2, hcl2] at hc2
    have hx1n : x1 < 0 := by
      by_contra hn
      rw [if_neg hn] at hc1
      exact lt_irrefl 0 hc1
    have hx2n : x2 < 0 := by
      by_contra hn
      rw [if_neg hn] at hc2
      exact lt_irrefl 0 hc2
    have hcc : col1 = col2 := raw_x_unique 0 htw htwW
      (by linarith) hx1n (by linarith) hx2n hdd
    have hxx : x1 = x2 := by
      have h0 := hdd
      rw [hcc] at h0
      have h1 : x1 - x2 = 0 := by simpa using h0
      linarith
    rw [ht1, ht2, hrr, hcc, hxx, hyy]
  · intro hc1 hc2
    rw [ht1, hcr1] at hc1
    rw [ht2, hcr2] at hc2
    have hx1n : wallWidth < x1 + tileWidth := by
      by_contra hn
      rw [if_neg hn] at hc1
      exact lt_irrefl 0 hc1
    have hx2n : wallWidth < x2 + tileWidth := by
      by_contra hn
      rw [if_neg hn] at hc2
      exact lt_irrefl 0 hc2
    have hmem1 : x1 < wallWidth := hb1
    have hmem2 : x2 < wallWidth := hb2
    have hcc : col1 = col2 := raw_x_unique wallWidth htw htwW
      (by linarith) hmem1 (by linarith) hmem2 hdd
    have hxx : x1 = x2 := by
      have h0 := hdd
      rw [hcc] at h0
      have h1 : x1 - x2 = 0 := by simpa using h0
      linarith
    rw [ht1, ht2, hrr, hcc, hxx, hyy]

/-! Corner pairing: structure of the pairs returned by
`identifyCornerPairs`. -/

theorem byRowMap_some {sel : Tile → ℚ} {tiles : List Tile} {r : ℤ} {bt : Tile}
    (h : byRowMap sel tiles r = some bt) :
    bt ∈ tiles ∧ bt.row = r ∧ 0 < sel bt := by
  suffices H : ∀ (l : List Tile) (m : ℤ → Option Tile),
      (l.foldl (fun m t => if 0 < sel t then rowMapInsert m t else m) m) r = some bt →
      m r = some bt ∨ (bt ∈ l ∧ bt.row = r ∧ 0 < sel bt) by
    rcases H tiles (fun _ => none) h with h0 | h0
    · exact absurd h0 (by simp)
    · exact h0
  intro l
  induction l with
  | nil => exact fun m hm => Or.inl hm
  | cons a l ih =>
    intro m hm
    rcases ih _ hm with h0 | h0
    · dsimp only at h0
      by_cases ha : 0 < sel a
      · rw [if_pos ha] at h0
        unfold rowMapInsert at h0
        by_cases hr : r = a.row
        · rw [if_pos hr] at h0
          have hba : a = bt := Option.some.injEq _ _ ▸ h0
          exact Or.inr ⟨hba ▸ List.mem_cons_self a l, by rw [← hba, hr], by rw [← hba]; exact ha⟩
        · rw [if_neg hr] at h0
          exact Or.inl h0
      · rw [if_neg ha] at h0
        exact Or.inl h0
    · exact Or.inr ⟨List.mem_cons_of_mem _ h0.1, h0.2⟩

theorem mem_leftCornerPairs {back leftL : WallLayout} {p : CornerPair}
    (hp : p ∈ leftCornerPairs back leftL) :
    p.sideWall = Wall.left ∧ p.sideTile ∈ leftL.tiles ∧ 0 < p.sideTile.cutInfo.right ∧
      p.backTile ∈ back.tiles ∧ p.backTile.row = p.sideTile.row ∧
      0 < p.backTile.cutInfo.left := by
  unfold leftCornerPairs at hp
  simp only [List.mem_filterMap] at hp
  obtain ⟨t, ht, hf⟩ := hp
  by_cases hc : 0 < t.cutInfo.right
  · rw [if_pos hc] at hf
    cases hbm : byRowMap (fun t => t.cutInfo.left) back.tiles t.row with
    | none => rw [hbm] at hf; exact absurd hf (by simp)
    | some bt =>
      rw [hbm] at hf
      have hpe : (⟨bt, t, Wall.left⟩ : CornerPair) = p := Option.some.injEq _ _ ▸ hf
      obtain ⟨hmem, hrow, hcut⟩ := byRowMap_some hbm
      rw [← hpe]
      exact ⟨rfl, ht, hc, hmem, hrow, hcut⟩
  · rw [if_neg hc] at hf
    exact absurd hf (by simp)

theorem mem_rightCornerPairs {back rightL : WallLayout} {p : CornerPair}
    (hp : p ∈ rightCornerPairs back rightL) :
    p.sideWall = Wall.right ∧ p.sideTile ∈ rightL.tiles ∧ 0 < p.sideTile.cutInfo.left ∧
      p.backTile ∈ back.tiles ∧ p.backTile.row = p.sideTile.row ∧
      0 < p.backTile.cutInfo.right := by
  unfold rightCornerPairs at hp
  simp only [List.mem_filterMap] at hp
  obtain ⟨t, ht, hf⟩ := hp
  by_cases hc : 0 < t.cutInfo.left
  · rw [if_pos hc] at hf
    cases hbm : byRowMap (fun t => t.cutInfo.right) back.tiles t.row with
    | none => rw [hbm] at hf; exact absurd hf (by simp)
    | some bt =>
      rw [hbm] at hf
      have hpe : (⟨bt, t, Wall.right⟩ : CornerPair) = p := Option.some.injEq _ _ ▸ hf
      obtain ⟨hmem, hrow, hcut⟩ := byRowMap_some hbm
      rw [← hpe]
      exact ⟨rfl, ht, hc, hmem, hrow, hcut⟩
  · rw [if_neg hc] at hf
    exact absurd hf (by simp)

/-! Cut and width facts about a single generated tile. -/

theorem tileAt_cutLeft_pos {W H tw th x y : ℚ} {r c : ℤ}
    (h : 0 < (tileAt W H tw th x y r c).cutInfo.left) : x < 0 := by
  obtain ⟨-, -, -, -, -, -, hcl, -⟩ := tileAt_fields W H tw th x y r c
  rw [hcl] at h
  by_contra hn
  rw [if_neg hn] at h
  exact lt_irrefl 0 h

theorem tileAt_cutLeft_zero {W H tw th x y : ℚ} {r c : ℤ}
    (h : (tileAt W H tw th x y r c).cutInfo.left = 0) : 0 ≤ x := by
  obtain ⟨-, -, -, -, -, -, hcl, -⟩ := tileAt_fields W H tw th x y r c
  rw [hcl] at h
  by_contra hn
  push_neg at hn
  rw [if_pos hn] at h
  exact absurd h (abs_ne_zero.mpr (ne_of_lt hn))

theorem tileAt_cutRight_pos {W H tw th x y : ℚ} {r c : ℤ}
    (h : 0 < (tileAt W H tw th x y r c).cutInfo.right) : W < x + tw := by
  obtain ⟨-, -, -, -, -, -, -, hcr, -⟩ := tileAt_fields W H tw th x y r c
  rw [hcr] at h
  by_contra hn
  rw [if_neg hn] at h
  exact lt_irrefl 0 h

theorem tileAt_cutRight_zero {W H tw th x y : ℚ} {r c : ℤ}
    (h : (tileAt W H tw th x y r c).cutInfo.right = 0) : x + tw ≤ W := by
  obtain ⟨-, -, -, -, -, -, -, hcr, -⟩ := tileAt_fields W H tw th x y r c
  rw [hcr] at h
  by_contra hn
  push_neg at hn
  rw [if_pos hn] at h
  have : x + tw = W := by linarith
  exact absurd this (ne_of_gt hn)

theorem tileAt_width_left_cut {W H tw th x y : ℚ} (r c : ℤ)
    (hx : x < 0) (hxr : x + tw ≤ W) :
    (tileAt W H tw th x y r c).width = x + tw := by
  obtain ⟨-, -, hw, -⟩ := tileAt_fields W H tw th x y r c
  rw [hw, min_eq_right hxr, max_eq_left hx.le]
  ring

theorem tileAt_width_right_cut {W H tw th x y : ℚ} (r c : ℤ)
    (hx : 0 ≤ x) (hxr : W < x + tw) :
    (tileAt W H tw th x y r c).width = W - x := by
  obtain ⟨-, -, hw, -⟩ := tileAt_fields W H tw th x y r c
  rw [hw, min_eq_left hxr.le, max_eq_right hx]

/-- C3 (amended): for every pair returned by `identifyCornerPairs` on the
three layouts of `calculateShowerLayout` (positive dimensions, grout
spacing non-negative), provided neither tile of the pair is cut on both
of its vertical edges — which can only happen when a wall is narrower
than one tile — the two visible widths sum exactly to the nominal tile
width `fullWidth`, hence in particular within the claimed 0.01 inch. -/
theorem corner_pair_width_sum (params : ShowerParams)
    (hW : 0 < params.showerWidth) (hH : 0 < params.showerHeight)
    (hD : 0 < params.showerDepth) (htw : 0 < params.tileWidth)
    (hth : 0 < params.tileHeight) (hg : 0 ≤ params.groutSpacing)
    {p : CornerPair} (hp : p ∈ (calculateShowerLayout params).cornerPairs)
    (hb : p.backTile.cutInfo.left = 0 ∨ p.backTile.cutInfo.right = 0)
    (hs : p.sideTile.cutInfo.left = 0 ∨ p.sideTile.cutInfo.right = 0) :
    p.backTile.width + p.sideTile.width = p.backTile.fullWidth := by
  obtain ⟨sw, sh, sd, tw, th, g, pat⟩ := params
  dsimp only at hW hH hD htw hth hg hp
  have hp2 : p ∈
      leftCornerPairs (calculateTileLayout sw sh tw th g pat none)
        (calculateTileLayout sd sh tw th g pat
          (some ⟨layoutStartX sw tw g none, layoutStartY sh th g none, true, false, sw⟩)) ++
      rightCornerPairs (calculateTileLayout sw sh tw th g pat none)
        (calculateTileLayout sd sh tw th g pat
          (some ⟨layoutStartX sw tw g none, layoutStartY sh th g none, false, true, sw⟩)) :=
    hp
  have htwW : tw ≤ tw + g := by linarith
  rcases List.mem_append.mp hp2 with hpl | hpr
  · obtain ⟨-, hstmem, hscut, hbtmem, hrow, hbcut⟩ := mem_leftCornerPairs hpl
    rw [calculateTileLayout_tiles] at hstmem hbtmem
    have hsx : layoutStartX sd tw g
        (some ⟨layoutStartX sw tw g none, layoutStartY sh th g none, true, false, sw⟩) =
        layoutStartX sw tw g none - sd := by
      simp [layoutStartX]
    rw [hsx] at hstmem
    obtain ⟨rb, cb, -, -, hmkb⟩ := mem_wallTiles hbtmem
    obtain ⟨rs, cs, -, -, hmks⟩ := mem_wallTiles hstmem
    obtain ⟨xb, yb, hxb, -, hxbW, -, hxbp, -, htb⟩ := mkTile_eq_some hmkb
    obtain ⟨xs, ys, hxs, -, hxsW, -, hxsp, -, hts⟩ := mkTile_eq_some hmks
    have hrr : rb = rs := by
      rw [htb, hts] at hrow
      obtain ⟨-, -, -, -, -, -, -, -, -, -, hrowb, -⟩ :=
        tileAt_fields sw sh tw th xb yb rb cb
      obtain ⟨-, -, -, -, -, -, -, -, -, -, hrows, -⟩ :=
        tileAt_fields sd sh tw th xs ys rs cs
      rw [hrowb, hrows] at hrow
      exact hrow
    have hxbneg : xb < 0 := tileAt_cutLeft_pos (htb ▸ hbcut)
    have hxscut : sd < xs + tw := tileAt_cutRight_pos (hts ▸ hscut)
    have hbr0 : p.backTile.cutInfo.right = 0 := by
      rcases hb with hb0 | hb0
      · rw [htb] at hb0
        have := tileAt_cutLeft_zero hb0
        linarith
      · exact hb0
    have hsl0 : p.sideTile.cutInfo.left = 0 := by
      rcases hs with hs0 | hs0
      · exact hs0
      · rw [hts] at hs0
        have := tileAt_cutRight_zero hs0
        linarith
    have hxbW2 : xb + tw ≤ sw := tileAt_cutRight_zero (htb ▸ hbr0)
    have hxs0 : 0 ≤ xs := tileAt_cutLeft_zero (hts ▸ hsl0)
    have hd : (xs - sd) - xb = ((cs : ℚ) - (cb : ℚ)) * (tw + g) := by
      rw [hxs, hxb, hrr]
      ring
    have hcc : cs = cb := raw_x_unique (0:ℚ) htw htwW
      (by linarith) (by linarith) (by linarith) hxbneg hd
    have hxx : xs = xb + sd := by
      rw [hcc] at hd
      have h0 : (xs - sd) - xb = 0 := by simpa using hd
      linarith
    obtain ⟨-, -, -, -, hfwb, -⟩ := tileAt_fields sw sh tw th xb yb rb cb
    rw [htb, hts, hfwb,
      tileAt_width_left_cut rb cb hxbneg hxbW2,
      tileAt_width_right_cut rs cs hxs0 hxscut]
    linarith
  · obtain ⟨-, hstmem, hscut, hbtmem, hrow, hbcut⟩ := mem_rightCornerPairs hpr
    rw [calculateTileLayout_tiles] at hstmem hbtmem
    have hsx : layoutStartX sd tw g
        (some ⟨layoutStartX sw tw g none, layoutStartY sh th g none, false, true, sw⟩) =
        layoutStartX sw tw g none + sw := by
      simp [layoutStartX]
    rw [hsx] at hstmem
    obtain ⟨rb, cb, -, -, hmkb⟩ := mem_wallTiles hbtmem
    obtain ⟨rs, cs, -, -, hmks⟩ := mem_wallTiles hstmem
    obtain ⟨xb, yb, hxb, -, hxbW, -, hxbp, -, htb⟩ := mkTile_eq_some hmkb
    obtain ⟨xs, ys, hxs, -, hxsW, -, hxsp, -, hts⟩ := mkTile_eq_some hmks
    have hrr : rb = rs := by
      rw [htb, hts] at hrow
      obtain ⟨-, -, -, -, -, -, -, -, -, -, hrowb, -⟩ :=
        tileAt_fields sw sh tw th xb yb rb cb
      obtain ⟨-, -, -, -, -, -, -, -, -, -, hrows, -⟩ :=
        tileAt_fields sd sh tw th xs ys rs cs
      rw [hrowb, hrows] at hrow
      exact hrow
    have hxsneg : xs < 0 := tileAt_cutLeft_pos (hts ▸ hscut)
    have hxbcut : sw < xb + tw := tileAt_cutRight_pos (htb ▸ hbcut)
    have hbl0 : p.backTile.cutInfo.left = 0 := by
      rcases hb with hb0 | hb0
      · exact hb0
      · rw [htb] at hb0
        have := tileAt_cutRight_zero hb0
        linarith
    have hsr0 : p.sideTile.cutInfo.right = 0 := by
      rcases hs with hs0 | hs0
      · rw [hts] at hs0
        have := tileAt_cutLeft_zero hs0
        linarith
      · exact hs0
    have hxb0 : 0 ≤ xb := tileAt_cutLeft_zero (htb ▸ hbl0)
    have hxsW2 : xs + tw ≤ sd := tileAt_cutRight_zero (hts ▸ hsr0)
    have hd : xs - (xb - sw) = ((cs : ℚ) - (cb : ℚ)) * (tw + g) := by
      rw [hxs, hxb, hrr]
      ring
    have hcc : cs = cb := raw_x_unique (0:ℚ) htw htwW
      (by linarith) hxsneg (by linarith) (by linarith) hd
    have hxx : xs = xb - sw := by
      rw [hcc] at hd
      have h0 : xs - (xb - sw) = 0 := by simpa using hd
      linarith
    obtain ⟨-, -, -, -, hfwb, -⟩ := tileAt_fields sw sh tw th xb yb rb cb
    rw [htb, hts, hfwb,
      tileAt_width_right_cut rb cb hxb0 hxbcut,
      tileAt_width_left_cut rs cs hxsneg hxsW2]
    linarith

/-! Identity keys of generated tiles are unique within each wall, and side
keys of corner pairs are unique across the pair list.  This justifies
modelling the source's object-identity `Map` keys by `(wall, row, col)`. -/

theorem intRange_nodup (a b : ℤ) : (intRange a b).Nodup := by
  unfold intRange
  refine List.Nodup.map ?_ (List.nodup_range _)
  intro i j h
  have h2 : a + (i : ℤ) = a + (j : ℤ) := h
  omega

theorem mkTile_key {W H tw th twW twH sX sY : ℚ} {pat : String} {row col : ℤ} {t : Tile}
    (h : mkTile W H tw th twW twH sX sY pat row col = some t) :
    (t.row, t.col) = (row, col) := by
  obtain ⟨x, y, -, -, -, -, -, -, ht⟩ := mkTile_eq_some h
  rw [ht]
  rfl

theorem filterMap_map_sublist {α β γ : Type*} (f : α → Option β) (g : β → γ) (k : α → γ)
    (hf : ∀ a b, f a = some b → g b = k a) :
    ∀ l : List α, ((l.filterMap f).map g).Sublist (l.map k)
  | [] => by simp
  | a :: l => by
    rw [List.filterMap_cons, List.map_cons]
    cases hfa : f a with
    | none => exact List.Sublist.cons _ (filterMap_map_sublist f g k hf l)
    | some b =>
      rw [List.map_cons, hf a b hfa]
      exact List.Sublist.cons₂ _ (filterMap_map_sublist f g k hf l)

theorem wallTiles_keys_nodup (W H tw th g : ℚ) (pat : String) (sX sY : ℚ) :
    ((wallTiles W H tw th g pat sX sY).map (fun t => (t.row, t.col))).Nodup := by
  unfold wallTiles
  rw [List.map_flatMap, List.nodup_flatMap]
  have hsub : ∀ row : ℤ,
      (((intRange (⌊sX / (tw + g)⌋ - 2) (⌈(W + |sX|) / (tw + g)⌉ + 2)).filterMap
          (fun col => mkTile W H tw th (tw + g) (th + g) sX sY pat row col)).map
        (fun t => (t.row, t.col))).Sublist
      ((intRange (⌊sX / (tw + g)⌋ - 2) (⌈(W + |sX|) / (tw + g)⌉ + 2)).map
        (fun col => (row, col))) := by
    intro row
    exact filterMap_map_sublist _ _ _ (fun c t hct => mkTile_key hct) _
  have hfst : ∀ (row : ℤ) (k : ℤ × ℤ),
      k ∈ (((intRange (⌊sX / (tw + g)⌋ - 2) (⌈(W + |sX|) / (tw + g)⌉ + 2)).filterMap
          (fun col => mkTile W H tw th (tw + g) (th + g) sX sY pat row col)).map
        (fun t => (t.row, t.col))) → k.1 = row := by
    intro row k hk
    have hk2 := List.Sublist.subset (hsub row) hk
    obtain ⟨c, -, rfl⟩ := List.mem_map.mp hk2
    rfl
  constructor
  · intro row hrow
    exact List.Sublist.nodup (hsub row)
      (List.Nodup.map (fun c1 c2 h => congrArg Prod.snd h) (intRange_nodup _ _))
  · refine List.Pairwise.imp ?_ (intRange_nodup _ _)
    intro r1 r2 hne k hk1 hk2
    exact hne ((hfst r1 k hk1).symm.trans (hfst r2 k hk2))

theorem calculateTileLayout_keys_nodup (W H tw th g : ℚ) (pat : String)
    (wi : Option WrapInfo) (w : Wall) :
    (((calculateTileLayout W H tw th g pat wi).tiles).map (tileKey w)).Nodup := by
  rw [calculateTileLayout_tiles]
  have h1 : ((wallTiles W H tw th g pat (layoutStartX W tw g wi)
        (layoutStartY H th g wi)).map (tileKey w)) =
      ((wallTiles W H tw th g pat (layoutStartX W tw g wi)
        (layoutStartY H th g wi)).map (fun t => (t.row, t.col))).map
        (fun rc => (w, rc.1, rc.2)) := by
    rw [List.map_map]
    rfl
  rw [h1]
  exact List.Nodup.map
    (fun rc1 rc2 h => by
      have h1 := congrArg (fun q : TileKey => q.2.1) h
      have h2 := congrArg (fun q : TileKey => q.2.2) h
      exact Prod.ext h1 h2)
    (wallTiles_keys_nodup W H tw th g pat _ _)

theorem leftCornerPairs_keys_sublist (back leftL : WallLayout) :
    (((leftCornerPairs back leftL).map (fun p => tileKey p.sideWall p.sideTile)).Sublist
      (leftL.tiles.map (tileKey Wall.left))) := by
  unfold leftCornerPairs
  apply filterMap_map_sublist
  intro t p hf
  by_cases hc : 0 < t.cutInfo.right
  · rw [if_pos hc] at hf
    cases hbm : byRowMap (fun t => t.cutInfo.left) back.tiles t.row with
    | none => rw [hbm] at hf; cases hf
    | some bt =>
      rw [hbm] at hf
      have hpe : (⟨bt, t, Wall.left⟩ : CornerPair) = p := Option.some.injEq _ _ ▸ hf
      rw [← hpe]
  · rw [if_neg hc] at hf
    cases hf

theorem rightCornerPairs_keys_sublist (back rightL : WallLayout) :
    (((rightCornerPairs back rightL).map (fun p => tileKey p.sideWall p.sideTile)).Sublist
      (rightL.tiles.map (tileKey Wall.right))) := by
  unfold rightCornerPairs
  apply filterMap_map_sublist
  intro t p hf
  by_cases hc : 0 < t.cutInfo.left
  · rw [if_pos hc] at hf
    cases hbm : byRowMap (fun t => t.cutInfo.right) back.tiles t.row with
    | none => rw [hbm] at hf; cases hf
    | some bt =>
      rw [hbm] at hf
      have hpe : (⟨bt, t, Wall.right⟩ : CornerPair) = p := Option.some.injEq _ _ ▸ hf
      rw [← hpe]
  · rw [if_neg hc] at hf
    cases hf

theorem identifyCornerPairs_sideKeys_nodup {back leftL rightL : WallLayout}
    (hnl : (leftL.tiles.map (tileKey Wall.left)).Nodup)
    (hnr : (rightL.tiles.map (tileKey Wall.right)).Nodup) :
    ((identifyCornerPairs back leftL rightL).map
      (fun p => tileKey p.sideWall p.sideTile)).Nodup := by
  unfold identifyCornerPairs
  rw [List.map_append]
  refine List.Nodup.append
    (List.Sublist.nodup (leftCornerPairs_keys_sublist back leftL) hnl)
    (List.Sublist.nodup (rightCornerPairs_keys_sublist back rightL) hnr)
    ?_
  intro k hk1 hk2
  have h1 := List.Sublist.subset (leftCornerPairs_keys_sublist back leftL) hk1
  have h2 := List.Sublist.subset (rightCornerPairs_keys_sublist back rightL) hk2
  obtain ⟨t1, -, rfl⟩ := List.mem_map.mp h1
  obtain ⟨t2, -, hk⟩ := List.mem_map.mp h2
  have : Wall.right = Wall.left := congrArg Prod.fst hk
  cases this

/-! The numbering pass: what one step writes, and how the counters move. -/

theorem tileKey_wall_ne {w1 w2 : Wall} (h : w1 ≠ w2) (t1 t2 : Tile) :
    tileKey w1 t1 ≠ tileKey w2 t2 :=
  fun heq => h (congrArg Prod.fst heq)

theorem numberTile_assign_ne (u : Bool) (bY : Option ℚ) (pm : TileKey → Option TileKey)
    (w : Wall) (s : NumberingState) (t : Tile) (k : TileKey)
    (hk : tileKey w t ≠ k) :
    (numberTile u bY pm w s t).assign k = s.assign k := by
  unfold numberTile
  cases pm (tileKey w t) with
  | some bk => exact Function.update_noteq (Ne.symm hk) _ _
  | none => split_ifs <;> exact Function.update_noteq (Ne.symm hk) _ _

theorem foldl_numberTile_assign_ne (u : Bool) (bY : Option ℚ) (pm : TileKey → Option TileKey)
    (w : Wall) (k : TileKey) :
    ∀ (l : List Tile) (s : NumberingState), (∀ t ∈ l, tileKey w t ≠ k) →
      (l.foldl (numberTile u bY pm w) s).assign k = s.assign k
  | [], _, _ => rfl
  | a :: l, s, h => by
    rw [List.foldl_cons,
      foldl_numberTile_assign_ne u bY pm w k l _ (fun t ht => h t (List.mem_cons_of_mem _ ht)),
      numberTile_assign_ne u bY pm w s a k (h a (List.mem_cons_self _ _))]

theorem numberTile_counters (u : Bool) (bY : Option ℚ) (pm : TileKey → Option TileKey)
    (w : Wall) (s : NumberingState) (t : Tile) :
    (numberTile u bY pm w s t).nextNumber + (numberTile u bY pm w s t).nextLedger =
      s.nextNumber + s.nextLedger + (if (pm (tileKey w t)).isNone then 1 else 0) := by
  unfold numberTile
  cases pm (tileKey w t) with
  | some bk => simp
  | none =>
    rw [if_pos (show (none : Option TileKey).isNone = true from rfl)]
    split_ifs <;> simp <;> omega

theorem foldl_numberTile_counters (u : Bool) (bY : Option ℚ) (pm : TileKey → Option TileKey)
    (w : Wall) :
    ∀ (l : List Tile) (s : NumberingState),
      (l.foldl (numberTile u bY pm w) s).nextNumber +
        (l.foldl (numberTile u bY pm w) s).nextLedger =
      s.nextNumber + s.nextLedger + l.countP (fun t => (pm (tileKey w t)).isNone)
  | [], s => by simp
  | a :: l, s => by
    rw [List.foldl_cons, foldl_numberTile_counters u bY pm w l _, List.countP_cons,
      numberTile_counters u bY pm w s a]
    by_cases hpa : (pm (tileKey w a)).isNone = true <;> simp [hpa] <;> omega

theorem foldl_numberTile_assign_paired (u : Bool) (bY : Option ℚ)
    (pm : TileKey → Option TileKey) (w : Wall) (t : Tile) (kb : TileKey)
    (hpm : pm (tileKey w t) = some kb) :
    ∀ (l : List Tile) (s : NumberingState), t ∈ l → (l.map (tileKey w)).Nodup →
      (∀ t2 ∈ l, tileKey w t2 ≠ kb) →
      (l.foldl (numberTile u bY pm w) s).assign (tileKey w t) = s.assign kb
  | [], _, ht, _, _ => absurd ht (List.not_mem_nil _)
  | a :: l, s, ht, hnd, hkb => by
    rw [List.map_cons, List.nodup_cons] at hnd
    rw [List.foldl_cons]
    rcases List.mem_cons.mp ht with rfl | htl
    · have hna : ∀ t2 ∈ l, tileKey w t2 ≠ tileKey w t := by
        intro t2 ht2 heq2
        exact hnd.1 (heq2 ▸ List.mem_map_of_mem (tileKey w) ht2)
      rw [foldl_numberTile_assign_ne u bY pm w (tileKey w t) l _ hna]
      unfold numberTile
      rw [hpm]
      exact Function.update_same _ _ _
    · rw [foldl_numberTile_assign_paired u bY pm w t kb hpm l _ htl hnd.2
        (fun t2 h2 => hkb t2 (List.mem_cons_of_mem _ h2))]
      exact numberTile_assign_ne u bY pm w s a kb (hkb a (List.mem_cons_self _ _))

/-! The pair map: lookups after the build fold. -/

theorem pairMapOf_foldl_ne (k : TileKey) :
    ∀ (pairs : List CornerPair) (m : TileKey → Option TileKey),
      (∀ p ∈ pairs, tileKey p.sideWall p.sideTile ≠ k) →
      (pairs.foldl (fun m p => Function.update m (tileKey p.sideWall p.sideTile)
        (some (tileKey Wall.back p.backTile))) m) k = m k
  | [], _, _ => rfl
  | q :: l, m, h => by
    rw [List.foldl_cons,
      pairMapOf_foldl_ne k l _ (fun p hp => h p (List.mem_cons_of_mem _ hp))]
    exact Function.update_noteq (Ne.symm (h q (List.mem_cons_self _ _))) _ _

theorem pairMapOf_sideKey_aux :
    ∀ (pairs : List CornerPair) (m : TileKey → Option TileKey) (p : CornerPair),
      p ∈ pairs →
      (pairs.map (fun q => tileKey q.sideWall q.sideTile)).Nodup →
      (pairs.foldl (fun m q => Function.update m (tileKey q.sideWall q.sideTile)
        (some (tileKey Wall.back q.backTile))) m) (tileKey p.sideWall p.sideTile) =
        some (tileKey Wall.back p.backTile)
  | [], _, p, hp, _ => absurd hp (List.not_mem_nil _)
  | q :: l, m, p, hp, hnd => by
    rw [List.map_cons, List.nodup_cons] at hnd
    rw [List.foldl_cons]
    rcases List.mem_cons.mp hp with rfl | hpl
    · have hnol : ∀ p2 ∈ l, tileKey p2.sideWall p2.sideTile ≠ tileKey p.sideWall p.sideTile := by
        intro p2 hp2 heq
        exact hnd.1 (heq ▸ List.mem_map_of_mem _ hp2)
      rw [pairMapOf_foldl_ne _ l _ hnol]
      exact Function.update_same _ _ _
    · exact pairMapOf_sideKey_aux l _ p hpl hnd.2

theorem pairMapOf_sideKey (pairs : List CornerPair) (p : CornerPair) (hp : p ∈ pairs)
    (hnd : (pairs.map (fun q => tileKey q.sideWall q.sideTile)).Nodup) :
    pairMapOf pairs (tileKey p.sideWall p.sideTile) = some (tileKey Wall.back p.backTile) :=
  pairMapOf_sideKey_aux pairs _ p hp hnd

theorem mem_identifyCornerPairs {back leftL rightL : WallLayout} {p : CornerPair}
    (hp : p ∈ identifyCornerPairs back leftL rightL) :
    (p.sideWall = Wall.left ∧ p.sideTile ∈ leftL.tiles) ∨
      (p.sideWall = Wall.right ∧ p.sideTile ∈ rightL.tiles) := by
  unfold identifyCornerPairs at hp
  rcases List.mem_append.mp hp with h | h
  · exact Or.inl ⟨(mem_leftCornerPairs h).1, (mem_leftCornerPairs h).2.1⟩
  · exact Or.inr ⟨(mem_rightCornerPairs h).1, (mem_rightCornerPairs h).2.1⟩

/-- The core of the C6 claim, for arbitrary wall layouts whose per-wall
tile keys are unique: after the numbering pass, each side tile of a
corner pair carries the same assignment as its back tile, and the two
counters together advanced exactly once per unpaired tile. -/
theorem assignGlobalTileNumbers_pairs_general (u : Bool)
    (back leftL rightL : WallLayout)
    (hnl : (leftL.tiles.map (tileKey Wall.left)).Nodup)
    (hnr : (rightL.tiles.map (tileKey Wall.right)).Nodup) :
    (∀ p ∈ identifyCornerPairs back leftL rightL,
      (assignGlobalTileNumbers u back leftL rightL
          (identifyCornerPairs back leftL rightL)).assign (tileKey p.sideWall p.sideTile) =
        (assignGlobalTileNumbers u back leftL rightL
          (identifyCornerPairs back leftL rightL)).assign (tileKey Wall.back p.backTile)) ∧
    (assignGlobalTileNumbers u back leftL rightL
        (identifyCornerPairs back leftL rightL)).nextNumber +
      (assignGlobalTileNumbers u back leftL rightL
        (identifyCornerPairs back leftL rightL)).nextLedger =
      2 + ((back.tiles.map (tileKey Wall.back) ++ leftL.tiles.map (tileKey Wall.left) ++
        rightL.tiles.map (tileKey Wall.right)).countP
        (fun k => (pairMapOf (identifyCornerPairs back leftL rightL) k).isNone)) := by
  have hkeys := @identifyCornerPairs_sideKeys_nodup back leftL rightL hnl hnr
  set pairs := identifyCornerPairs back leftL rightL with hpairsdef
  set pm := pairMapOf pairs with hpmdef
  set bY := bottomRowYOf u back with hbYdef
  set s1 := (sortTiles back.tiles).foldl (numberTile u bY pm Wall.back)
    ⟨1, 1, fun _ => none⟩ with hs1def
  set s2 := (sortTiles leftL.tiles).foldl (numberTile u bY pm Wall.left) s1 with hs2def
  set s3 := (sortTiles rightL.tiles).foldl (numberTile u bY pm Wall.right) s2 with hs3def
  have hassign : assignGlobalTileNumbers u back leftL rightL pairs = s3 := rfl
  constructor
  · intro p hp
    have hpmk := pairMapOf_sideKey pairs p hp hkeys
    have eb3 : s3.assign (tileKey Wall.back p.backTile) =
        s2.assign (tileKey Wall.back p.backTile) := by
      rw [hs3def]
      exact foldl_numberTile_assign_ne u bY pm Wall.right _ _ _
        (fun t2 _ => tileKey_wall_ne (by decide) t2 p.backTile)
    have eb2 : s2.assign (tileKey Wall.back p.backTile) =
        s1.assign (tileKey Wall.back p.backTile) := by
      rw [hs2def]
      exact foldl_numberTile_assign_ne u bY pm Wall.left _ _ _
        (fun t2 _ => tileKey_wall_ne (by decide) t2 p.backTile)
    rcases mem_identifyCornerPairs hp with ⟨hw, hmem⟩ | ⟨hw, hmem⟩
    · rw [hassign, hw]
      rw [hw] at hpmk
      have e1 : s3.assign (tileKey Wall.left p.sideTile) =
          s2.assign (tileKey Wall.left p.sideTile) := by
        rw [hs3def]
        exact foldl_numberTile_assign_ne u bY pm Wall.right _ _ _
          (fun t2 _ => tileKey_wall_ne (by decide) t2 p.sideTile)
      have e2 : s2.assign (tileKey Wall.left p.sideTile) =
          s1.assign (tileKey Wall.back p.backTile) := by
        rw [hs2def]
        exact foldl_numberTile_assign_paired u bY pm Wall.left p.sideTile
          (tileKey Wall.back p.backTile) hpmk (sortTiles leftL.tiles) s1
          ((List.mergeSort_perm leftL.tiles tileBefore).symm.subset hmem)
          (((List.mergeSort_perm leftL.tiles tileBefore).map (tileKey Wall.left)).nodup_iff.mpr
            hnl)
          (fun t2 _ => tileKey_wall_ne (by decide) t2 p.backTile)
      rw [e1, e2, eb3, eb2]
    · rw [hassign, hw]
      rw [hw] at hpmk
      have e1 : s3.assign (tileKey Wall.right p.sideTile) =
          s2.assign (tileKey Wall.back p.backTile) := by
        rw [hs3def]
        exact foldl_numberTile_assign_paired u bY pm Wall.right p.sideTile
          (tileKey Wall.back p.backTile) hpmk (sortTiles rightL.tiles) s2
          ((List.mergeSort_perm rightL.tiles tileBefore).symm.subset hmem)
          (((List.mergeSort_perm rightL.tiles tileBefore).map (tileKey Wall.right)).nodup_iff.mpr
            hnr)
          (fun t2 _ => tileKey_wall_ne (by decide) t2 p.backTile)
      rw [e1, eb3]
  · rw [hassign, hs3def, hs2def, hs1def,
      foldl_numberTile_counters u bY pm Wall.right _ _,
      foldl_numberTile_counters u bY pm Wall.left _ _,
      foldl_numberTile_counters u bY pm Wall.back _ _]
    simp only [sortTiles]
    have h1 : (back.tiles.map (tileKey Wall.back)).countP (fun k => (pm k).isNone) =
        back.tiles.countP (fun t => (pm (tileKey Wall.back t)).isNone) := by
      rw [List.countP_map]
      rfl
    have h2 : (leftL.tiles.map (tileKey Wall.left)).countP (fun k => (pm k).isNone) =
        leftL.tiles.countP (fun t => (pm (tileKey Wall.left t)).isNone) := by
      rw [List.countP_map]
      rfl
    have h3 : (rightL.tiles.map (tileKey Wall.right)).countP (fun k => (pm k).isNone) =
        rightL.tiles.countP (fun t => (pm (tileKey Wall.right t)).isNone) := by
      rw [List.countP_map]
      rfl
    rw [(List.mergeSort_perm back.tiles tileBefore).countP_eq,
      (List.mergeSort_perm leftL.tiles tileBefore).countP_eq,
      (List.mergeSort_perm rightL.tiles tileBefore).countP_eq,
      List.countP_append, List.countP_append, h1, h2, h3]
    omega

/-- C6: after `assignGlobalTileNumbers` runs on the three wall layouts and
the corner pairs of `calculateShowerLayout` (walls processed back, left,
right), every side half of a corner pair carries the same assignment as
its paired back-wall tile, and the two counters together advanced exactly
once per tile that is not the side half of a pair — paired side tiles
consume no number of either counter. -/
theorem corner_pair_shares_install_number (params : ShowerParams) (useLedgerBoard : Bool) :
    (∀ p ∈ (calculateShowerLayout params).cornerPairs,
      (assignGlobalTileNumbers useLedgerBoard (calculateShowerLayout params).backWall
          (calculateShowerLayout params).leftWall (calculateShowerLayout params).rightWall
          (calculateShowerLayout params).cornerPairs).assign (tileKey p.sideWall p.sideTile) =
        (assignGlobalTileNumbers useLedgerBoard (calculateShowerLayout params).backWall
          (calculateShowerLayout params).leftWall (calculateShowerLayout params).rightWall
          (calculateShowerLayout params).cornerPairs).assign (tileKey Wall.back p.backTile)) ∧
    (assignGlobalTileNumbers useLedgerBoard (calculateShowerLayout params).backWall
        (calculateShowerLayout params).leftWall (calculateShowerLayout params).rightWall
        (calculateShowerLayout params).cornerPairs).nextNumber +
      (assignGlobalTileNumbers useLedgerBoard (calculateShowerLayout params).backWall
        (calculateShowerLayout params).leftWall (calculateShowerLayout params).rightWall
        (calculateShowerLayout params).cornerPairs).nextLedger =
      2 + (((calculateShowerLayout params).backWall.tiles.map (tileKey Wall.back) ++
        (calculateShowerLayout params).leftWall.tiles.map (tileKey Wall.left) ++
        (calculateShowerLayout params).rightWall.tiles.map (tileKey Wall.right)).countP
        (fun k => (pairMapOf (calculateShowerLayout params).cornerPairs k).isNone)) := by
  obtain ⟨sw, sh, sd, tw, th, g, pat⟩ := params
  exact assignGlobalTileNumbers_pairs_general useLedgerBoard _ _ _
    (calculateTileLayout_keys_nodup sd sh tw th g pat _ Wall.left)
    (calculateTileLayout_keys_nodup sd sh tw th g pat _ Wall.right)

/-! Concrete evaluations.  The rational operations of Batteries are marked
irreducible, which blocks the reduction `decide` performs before handing
the proof to the kernel; inside this section they are made semireducible
again so that the layouts of the concrete witnesses evaluate. -/

section ConcreteEvaluations

attribute [local semireducible] Rat.mul Rat.add Rat.sub Rat.inv Rat.ofScientific

/-- C9: `toFractionalInches` coincides with the reference definition
`toFractionalInchesSpec` modelled on the spec's wording, on every input;
and it maps the spec's sample values 3, 0.125, 3.5, 0.0625 and -0.5 to
`3"`, `1/8"`, `3 1/2"`, `1/8"` and `-1/2"`. -/
theorem toFractionalInches_matches_spec :
    (∀ v : ℚ, toFractionalInches v = toFractionalInchesSpec v) ∧
    toFractionalInches 3 = "3\"" ∧
    toFractionalInches (0.125 : ℚ) = "1/8\"" ∧
    toFractionalInches (3.5 : ℚ) = "3 1/2\"" ∧
    toFractionalInches (0.0625 : ℚ) = "1/8\"" ∧
    toFractionalInches (-0.5 : ℚ) = "-1/2\"" :=
  ⟨toFractionalInches_eq_spec, by decide, by decide, by decide, by decide, by decide⟩

theorem tile_cut_sums_to_full_witness :
    exampleBackTile ∈ (calculateTileLayout 30 10 8 8 0 "straight" none).tiles ∧
    (|exampleBackTile.cutInfo.left + exampleBackTile.width + exampleBackTile.cutInfo.right -
        exampleBackTile.fullWidth| ≤ 1/1000 ∧
     |exampleBackTile.cutInfo.top + exampleBackTile.height + exampleBackTile.cutInfo.bottom -
        exampleBackTile.fullHeight| ≤ 1/1000) :=
  ⟨by decide,
   @tile_cut_sums_to_full 30 10 8 8 0 "straight" none (by norm_num) (by norm_num)
     (by norm_num) (by norm_num) (le_refl 0) exampleBackTile (by decide)⟩

theorem tile_within_wall_bounds_witness :
    exampleLeftTile ∈ (calculateTileLayout 20 10 8 8 0 "straight"
      (some ⟨1, 3, true, false, 30⟩)).tiles ∧
    (0 ≤ exampleLeftTile.x ∧ 0 ≤ exampleLeftTile.y ∧
     exampleLeftTile.x + exampleLeftTile.width ≤ 20 ∧
     exampleLeftTile.y + exampleLeftTile.height ≤ 10) :=
  ⟨by decide,
   @tile_within_wall_bounds 20 10 8 8 0 "straight" (some ⟨1, 3, true, false, 30⟩)
     exampleLeftTile (by decide)⟩

theorem tile_positive_visible_size_witness :
    exampleBackTile ∈ (calculateTileLayout 30 10 8 8 0 "straight" none).tiles ∧
    (0 < exampleBackTile.width ∧ 0 < exampleBackTile.height) :=
  ⟨by decide,
   @tile_positive_visible_size 30 10 8 8 0 "straight" none (by norm_num) (by norm_num)
     (by norm_num) (by norm_num) exampleBackTile (by decide)⟩

theorem corner_pair_width_sum_witness :
    (⟨exampleBackTile, exampleLeftTile, Wall.left⟩ : CornerPair) ∈
      (calculateShowerLayout exampleParams).cornerPairs ∧
    exampleBackTile.width + exampleLeftTile.width = exampleBackTile.fullWidth :=
  ⟨by decide,
   @corner_pair_width_sum exampleParams (by decide) (by decide) (by decide) (by decide)
     (by decide) (by decide) ⟨exampleBackTile, exampleLeftTile, Wall.left⟩
     (by decide) (Or.inr rfl) (Or.inl rfl)⟩

theorem at_most_one_edge_cut_per_row_witness :
    exampleBackTile ∈ (calculateTileLayout 30 10 8 8 0 "straight" none).tiles ∧
    ((0 < exampleBackTile.cutInfo.left → 0 < exampleBackTile.cutInfo.left →
        exampleBackTile = exampleBackTile) ∧
     (0 < exampleBackTile.cutInfo.right → 0 < exampleBackTile.cutInfo.right →
        exampleBackTile = exampleBackTile)) :=
  ⟨by decide,
   @at_most_one_edge_cut_per_row 30 10 8 8 0 "straight" none (by norm_num) (by norm_num)
     (by norm_num) (by norm_num) (le_refl 0) exampleBackTile exampleBackTile
     (by decide) (by decide) rfl⟩

theorem corner_pair_shares_install_number_witness :
    (assignGlobalTileNumbers false (calculateShowerLayout exampleParams).backWall
        (calculateShowerLayout exampleParams).leftWall
        (calculateShowerLayout exampleParams).rightWall
        (calculateShowerLayout exampleParams).cornerPairs).assign
      (tileKey Wall.left exampleLeftTile) =
    (assignGlobalTileNumbers false (calculateShowerLayout exampleParams).backWall
        (calculateShowerLayout exampleParams).leftWall
        (calculateShowerLayout exampleParams).rightWall
        (calculateShowerLayout exampleParams).cornerPairs).assign
      (tileKey Wall.back exampleBackTile) :=
  (corner_pair_shares_install_number exampleParams false).1
    ⟨exampleBackTile, exampleLeftTile, Wall.left⟩ (by decide)

/-- C4 counterexample: `calculateShowerLayout` performs no validation.  At
the non-positive input `showerWidth = 0` it returns an ordinary layout
result (2 tile placements, no corner pairs, a purchase recommendation)
instead of raising a validation failure. -/
theorem core_returns_layout_for_nonpositive_input :
    (calculateShowerLayout ⟨0, 6, 6, 6, 6, 0, "straight"⟩).totalTiles = 2 ∧
    (calculateShowerLayout ⟨0, 6, 6, 6, 6, 0, "straight"⟩).cornerPairs = [] ∧
    (calculateShowerLayout ⟨0, 6, 6, 6, 6, 0, "straight"⟩).recommendedPurchase = 3 :=
  ⟨by decide, by decide, by decide⟩

/-- C3 counterexample: with positive dimensions (shower 6x6, depth 20,
tile 10x6, no grout) the single corner pair relates a back tile of
visible width 6 and a left tile of visible width 2, which sum to 8, not
to the nominal width 10 — off by 2 inches, far beyond the claimed 0.01
tolerance.  (The back wall is narrower than one tile, so its tile is cut
on both vertical edges.) -/
theorem corner_pair_width_sum_counterexample :
    ¬ (∀ p ∈ (calculateShowerLayout ⟨6, 6, 20, 10, 6, 0, "straight"⟩).cornerPairs,
        |p.backTile.width + p.sideTile.width - p.backTile.fullWidth| ≤ 1/100) := by
  intro h
  have hmem : (⟨⟨0, 0, 6, 6, 10, 6, true, ⟨2, 2, 0, 0⟩, 0, 0⟩,
      ⟨18, 0, 2, 6, 10, 6, true, ⟨0, 8, 0, 0⟩, 0, 0⟩, Wall.left⟩ : CornerPair) ∈
      (calculateShowerLayout ⟨6, 6, 20, 10, 6, 0, "straight"⟩).cornerPairs := by decide
  have := h _ hmem
  norm_num at this

end ConcreteEvaluations

end ShowerTile
